import Mathlib

/-!
Shallow embedding of the mongey document-model layer (viert/mongey):
cache backends (`mongey/cache/*.py`), the two-level cache read path
(`StorableModel._cache_get`, `model_cached_method`), save/destroy lifecycle
with cache invalidation (`BaseModel.save`, `StorableModel.invalidate`) and
the reference-integrity engine (`BaseModel._check_refs_on_destroy`).

Python dicts holding cache entries are embedded as association lists
`Store V = List (String × V)` with first-match lookup; Python `None` results
are `Option`; machine-level CRC32 arithmetic is over `Nat` with explicit
masking.
-/

namespace Mongey

/-- Association-list store embedding a Python `dict`. -/
abbrev Store (V : Type) : Type := List (String × V)

/-- `dict.get(key)` / `dict[key]`: first binding wins. -/
def lookupS {V : Type} (m : Store V) (k : String) : Option V :=
  match m with
  | [] => none
  | (k', v) :: rest => if k' = k then some v else lookupS rest k

/-- `dict[key] = value`: overwrite binding for `k`. -/
def setS {V : Type} (m : Store V) (k : String) (v : V) : Store V :=
  (k, v) :: m.filter (fun p => p.1 ≠ k)

/-- `del dict[key]` (no-op when absent, like guarded `if key in d: del d[key]`). -/
def delS {V : Type} (m : Store V) (k : String) : Store V :=
  m.filter (fun p => p.1 ≠ k)

/-- `key in dict`. -/
def hasS {V : Type} (m : Store V) (k : String) : Bool :=
  (lookupS m k).isSome

theorem lookupS_setS_self {V : Type} (m : Store V) (k : String) (v : V) :
    lookupS (setS m k v) k = some v := by
  simp [setS, lookupS]

theorem lookupS_filter_ne {V : Type} (m : Store V) (k : String) :
    lookupS (m.filter (fun p => p.1 ≠ k)) k = none := by
  induction m with
  | nil => rfl
  | cons p rest ih =>
    by_cases h : p.1 = k
    · simpa [List.filter, h] using ih
    · simpa [List.filter, h, lookupS] using ih

theorem lookupS_delS_self {V : Type} (m : Store V) (k : String) :
    lookupS (delS m k) k = none := lookupS_filter_ne m k

/-- Python return values of the single-node `delete` implementations: the
functions in `simple.py`, `request_local.py` and `nocache.py` are annotated
`-> None` and end without a `return` of a value, so they return `None`;
`memcached.py`'s `delete` returns a `bool`. -/
inductive PyRet : Type
  | none : PyRet
  | bool (b : Bool) : PyRet
deriving DecidableEq, Repr

/-! ### `mongey/cache/simple.py` — SimpleCache over the module-level dict -/

/-- `SimpleCache.get`: `__static_cache__.get(key)`. -/
def SimpleCache.get {V : Type} (st : Store V) (k : String) : Option V :=
  lookupS st k

/-- `SimpleCache.set`: `__static_cache__[key] = value`. -/
def SimpleCache.set {V : Type} (st : Store V) (k : String) (v : V) : Store V :=
  setS st k v

/-- `SimpleCache.has`: `key in __static_cache__`. -/
def SimpleCache.has {V : Type} (st : Store V) (k : String) : Bool :=
  hasS st k

/-- `SimpleCache.delete`: `if key in cache: del cache[key]`; falls off the end,
returning Python `None` in every case. -/
def SimpleCache.delete {V : Type} (st : Store V) (k : String) : PyRet × Store V :=
  (PyRet.none, delS st k)

/-! ### `mongey/cache/nocache.py` — NoCache -/

/-- `NoCache.get`: always `None`. -/
def NoCache.get (_k : String) : Option Unit := none

/-- `NoCache.delete`: body is `pass`, returns Python `None`. -/
def NoCache.delete (_k : String) : PyRet := PyRet.none

/-! ### `mongey/cache/request_local.py` — RequestLocalCache

The ambient `ContextVar` holds `Optional[Dict[str, Any]]`; `none` models the
absent execution scope (`cache is None`). -/

/-- `RequestLocalCache.get`. -/
def RequestLocalCache.get {V : Type} (scope : Option (Store V)) (k : String) :
    Option V :=
  match scope with
  | none => none
  | some st => lookupS st k

/-- `RequestLocalCache.set`: with no scope the write is dropped. -/
def RequestLocalCache.set {V : Type} (scope : Option (Store V)) (k : String)
    (v : V) : Option (Store V) :=
  match scope with
  | none => none
  | some st => some (setS st k v)

/-- `RequestLocalCache.delete`: returns Python `None`; removes the key when a
scope is present and the key exists. -/
def RequestLocalCache.delete {V : Type} (scope : Option (Store V)) (k : String) :
    PyRet × Option (Store V) :=
  match scope with
  | none => (PyRet.none, none)
  | some st => (PyRet.none, some (delS st k))

/-! ### Two-level read path

`StorableModel._cache_get` drives `ctx.l1_cache` / `ctx.l2_cache`.  Both map
backends implement `has key` as `key in dict` and `get key` as `dict.get(key)`,
so `has` succeeding is exactly `lookupS` returning `some`; the `if has: get`
sequences of the source collapse to a single `match` on `lookupS`.  The
authoritative `getter()` (a `find_one` partial) is embedded by its result, an
`Option V`; `loaderCalled` records whether the full-miss branch invoked it. -/

structure CGResult (V : Type) : Type where
  value : Option V
  l1 : Store V
  l2 : Store V
  loaderCalled : Bool
deriving DecidableEq

/-- `StorableModel._cache_get` (storable_model.py:215-249).  On L1 hit the
value is returned with no writes; on L2 hit the L2 value is first written to
L1 (`l1_cache.set(cache_key, data)`); on full miss the getter runs and its
result, when truthy (`if obj:`), is written to L2 then L1. -/
def cacheGet {V : Type} (l1 l2 : Store V) (k : String) (getterResult : Option V) :
    CGResult V :=
  match lookupS l1 k with
  | some data => ⟨some data, l1, l2, false⟩
  | none =>
    match lookupS l2 k with
    | some data => ⟨some data, setS l1 k data, l2, false⟩
    | none =>
      match getterResult with
      | some obj => ⟨some obj, setS l1 k obj, setS l2 k obj, true⟩
      | none => ⟨none, l1, l2, true⟩

/-- `model_cached_method.__set_name__`'s `wrapper` (decorators.py:94-129).
The wrapper uses `get` + `is not None` (never `has`), and stores whatever the
wrapped method returned — including Python `None`.  Stored values are
therefore `Option D` (inner `none` = stored Python `None`), and a read
flattens absence and stored-`None` into one `none`, exactly like
`dict.get(key) is not None`. -/
def wrapperRead {D : Type} (m : Store (Option D)) (k : String) : Option D :=
  (lookupS m k).bind id

/-- Result of one call to the memoized-method wrapper; `value` is the Python
return value (`none` = Python `None`), `methodCalled` whether the wrapped
method was invoked. -/
structure MWResult (D : Type) : Type where
  value : Option D
  l1 : Store (Option D)
  l2 : Store (Option D)
  methodCalled : Bool
deriving DecidableEq

/-- The memoized-method wrapper body: L1 `get`, L2 `get` (promoting a hit to
L1), else invoke the wrapped method and write its value — unconditionally,
even `None` — to L2 then L1. -/
def methodWrapper {D : Type} (l1 l2 : Store (Option D)) (k : String)
    (computed : Option D) : MWResult D :=
  match wrapperRead l1 k with
  | some v => ⟨some v, l1, l2, false⟩
  | none =>
    match wrapperRead l2 k with
    | some v => ⟨some v, setS l1 k (some v), l2, false⟩
    | none => ⟨computed, setS l1 k computed, setS l2 k computed, true⟩

/-! ### `mongey/cache/memcached.py` — sharded distributed backend

`binascii.crc32` is the standard reflected CRC-32 (polynomial `0xEDB88320`,
initial value and final xor `0xFFFFFFFF`), embedded bit-by-bit over `Nat`.
Keys are byte lists (`str.encode("utf-8")`; all keys involved are ASCII). -/

/-- One bit-step of reflected CRC-32. -/
def crc32Step (c : Nat) : Nat :=
  if c % 2 = 1 then (c >>> 1) ^^^ 0xEDB88320 else c >>> 1

/-- `n` bit-steps. -/
def crc32Bits (c : Nat) : Nat → Nat
  | 0 => c
  | n + 1 => crc32Bits (crc32Step c) n

/-- Feed one byte into the running CRC. -/
def crc32Update (c b : Nat) : Nat := crc32Bits (c ^^^ b) 8

/-- `binascii.crc32(bytes)`. -/
def crc32 (bytes : List Nat) : Nat :=
  (bytes.foldl crc32Update 0xFFFFFFFF) ^^^ 0xFFFFFFFF

/-- memcached.py:31-32 `server_hash_func`:
`(((binascii.crc32(key) & 0xffffffff) >> 16) & 0x7fff) or 1`
(Python `x or 1` replaces a zero hash with 1). -/
def server_hash_func (key : List Nat) : Nat :=
  let h := ((crc32 key &&& 0xffffffff) >>> 16) &&& 0x7fff
  if h = 0 then 1 else h

/-- The placement hash exactly as the spec words it: CRC32 of the key bytes,
shifted right 16, masked to 15 bits, a result of 0 replaced with 1 (no inner
`& 0xffffffff` mask). -/
def placementHashSpec (key : List Nat) : Nat :=
  let h := (crc32 key >>> 16) &&& 0x7fff
  if h = 0 then 1 else h

/-- Fuel-driven digit expansion (structural recursion so the kernel can
evaluate it; fuel `n + 1` always suffices since `n / 10 < n`). -/
def decimalBytesAux : Nat → Nat → List Nat
  | 0, _ => []
  | fuel + 1, n =>
    if n < 10 then [48 + n]
    else decimalBytesAux fuel (n / 10) ++ [48 + n % 10]

/-- ASCII bytes of the decimal representation of `n`, matching Python
`str(n).encode()` for a non-negative int. -/
def decimalBytes (n : Nat) : List Nat := decimalBytesAux (n + 1) n

/-- The hash re-derivation of `_get_backend` for `retry > 0`
(memcached.py:68-70): `str(serverhash) + str(retry)` — string concatenation —
re-hashed through `server_hash_func`. -/
def rederivedHash (h0 r : Nat) : Nat :=
  server_hash_func (decimalBytes h0 ++ decimalBytes r)

/-- `MemcachedCache._get_backend` (memcached.py:59-73), string-key path (the
tuple branch is never taken by `pick_and_retry`, which always passes the raw
string key back in).  Returns the selected node, `none` when the node list is
empty. -/
def getBackend {α : Type} (nodes : List α) (key : List Nat) (retry : Nat) :
    Option α :=
  if nodes.isEmpty then none
  else
    let h0 := server_hash_func key
    let h := if retry > 0 then rederivedHash h0 retry else h0
    nodes.get? (h % nodes.length)

/-- memcached.py:11 `MAX_RETRIES`. -/
def MAX_RETRIES : Nat := 5

/-- Faults a backend call can raise: `aiomcache.ValidationException` vs any
other (transport-level) exception. -/
inductive Fault : Type
  | validation : Fault
  | transport : Fault
deriving DecidableEq

/-- `pick_and_retry`'s loop (memcached.py:14-28): the transport is an oracle
`net` giving each attempt's outcome (attempt `r` is routed to the node
`getBackend _ key r` selects — deterministic in `r`, so the oracle is indexed
by the retry counter).  The loop starts at `retry = 0`; each exception
increments the counter and re-raises once it exceeds `MAX_RETRIES`, so after
the first attempt exactly `fuel` more failures are tolerated, `fuel` starting
at `MAX_RETRIES`. -/
def pickLoop {V : Type} (net : Nat → Except Fault V) :
    Nat → Nat → Except Fault V
  | fuel, r =>
    match net r with
    | .ok v => .ok v
    | .error e =>
      match fuel with
      | 0 => .error e
      | fuel' + 1 => pickLoop net fuel' (r + 1)

/-- The decorated `_get`/`_set` entry point: `pick_and_retry` from
`retry = 0` with budget `MAX_RETRIES`. -/
def pickAndRetry {V : Type} (net : Nat → Except Fault V) : Except Fault V :=
  pickLoop net MAX_RETRIES 0

/-- `MemcachedCache.get` (memcached.py:94-104): calls the retrying `_get`,
catching only `aiomcache.ValidationException` (degraded to `None`); any other
exception escaping the retry budget propagates.  Unpickling is the identity
on our abstract values (its failure branch is not modelled). -/
def MemcachedCache.get {V : Type} (net : Nat → Except Fault (Option V)) :
    Except Fault (Option V) :=
  match pickAndRetry net with
  | .ok res => .ok res
  | .error .validation => .ok none
  | .error .transport => .error .transport

/-- `MemcachedCache.set` (memcached.py:83-88): same shape, degrading a
validation fault to a silent no-op. -/
def MemcachedCache.set (net : Nat → Except Fault Unit) : Except Fault Unit :=
  match pickAndRetry net with
  | .ok _ => .ok ()
  | .error .validation => .ok ()
  | .error .transport => .error .transport

/-- `MemcachedCache.delete` (memcached.py:106-112) fans out to every node and
returns `any(results)` — a genuine `bool`, unlike the single-node backends. -/
def MemcachedCache.delete (nodeResults : List Bool) : Bool :=
  nodeResults.any id

/-! ### Save lifecycle and cache invalidation

`BaseModel.save` (base_model.py:129-154) with `StorableModel.invalidate`
(storable_model.py:251-260).  A record is embedded by the metadata the
invalidation path consults: collection name, id (`none` = new record),
registered cache-key fields, memoized method names, current field values and
the `_initial_state` snapshot.  Field values are embedded string-rendered
(`f"{collection}.{value}"` formats them into the key); a `none` value is
Python `None`.  The default hooks (`_before_validation`, `_before_save`,
`_after_save`) are `pass` and field validation succeeds on the records
modelled here, so `save` reduces to invalidate → db write → snapshot
refresh. -/

structure MModel : Type where
  collection : String
  id : Option String
  cacheKeyFields : List String
  cachedMethods : List String
  fieldsCur : Store (Option String)
  initialState : Store (Option String)
deriving DecidableEq

/-- The cache keys `StorableModel.invalidate` deletes, in order: one
`"{collection}.{value}"` per cache-key field whose value **in the initial
snapshot** (`self._initial_state.get(field)`) is not `None`, then — only for
a persisted record (`if not self.is_new`) — one
`"{collection}.{id}.{method}"` per memoized method. -/
def invalidationKeys (m : MModel) : List String :=
  (m.cacheKeyFields.filterMap fun f =>
    match (lookupS m.initialState f).join with
    | some v => some (m.collection ++ "." ++ v)
    | none => none) ++
  (match m.id with
   | some i => m.cachedMethods.map fun meth => m.collection ++ "." ++ i ++ "." ++ meth
   | none => [])

/-- Observable side effects of `save`, in execution order. -/
inductive Ev : Type
  | delL1 (key : String) : Ev
  | delL2 (key : String) : Ev
  | dbWrite : Ev
  | snapRefresh : Ev
deriving DecidableEq

/-- `StorableModel._invalidate` deletes each key from L1 then L2
(storable_model.py:275-280); `invalidate` walks the keys in order. -/
def invalidateEvents (m : MModel) : List Ev :=
  (invalidationKeys m).flatMap fun k => [Ev.delL1 k, Ev.delL2 k]

/-- Effect of `invalidate` on a pair of map-backed cache tiers: every
invalidation key is deleted from both stores, whatever they contained. -/
def applyInvalidate {V : Type} (m : MModel) (l1 l2 : Store V) :
    Store V × Store V :=
  ((invalidationKeys m).foldl delS l1, (invalidationKeys m).foldl delS l2)

/-- `BaseModel.save` (default hooks, successful validation): computes
`is_new`, invalidates (when `invalidate_cache`), persists (`_save_to_db`,
which assigns `newId` to a new record), then refreshes `_initial_state` from
the current field values.  Returns the updated record and the event trace. -/
def save (m : MModel) (newId : String) (invalidateCache : Bool) :
    MModel × List Ev :=
  let events :=
    (if invalidateCache then invalidateEvents m else []) ++
    [Ev.dbWrite, Ev.snapRefresh]
  let assignedId := match m.id with
    | some i => some i
    | none => some newId
  ({ m with id := assignedId, initialState := m.fieldsCur }, events)

/-! ### Reference registry and destroy-policy engine

`BaseModel._check_refs_on_destroy` (base_model.py:60-80) and
`BaseModel.destroy` (base_model.py:113-127).  A dependent record is embedded
by the triple its queries consult: its class name, the referencing field and
that field's value (`{ref.ref_field: self.id}` matches
`target = some ownerId`).  The owner rows of storage are a separate list so
that "the owner record remains persisted" is expressible. -/

inductive OnDestroy : Type
  | raise : OnDestroy
  | cascade : OnDestroy
  | detach : OnDestroy
deriving DecidableEq

/-- `ModelReference` (reference.py): dependent class name, referencing field,
destroy policy. -/
structure ModelRef : Type where
  refClsName : String
  refField : String
  onDestroy : OnDestroy
deriving DecidableEq

/-- A dependent record, reduced to what the destroy-policy queries see. -/
structure Dep : Type where
  cls : String
  fld : String
  target : Option String
deriving DecidableEq

/-- Does dependent `d` match the query `ref.ref_class.find({ref.ref_field:
ownerId})`? -/
def matchesB (d : Dep) (r : ModelRef) (i : String) : Bool :=
  decide (d.cls = r.refClsName ∧ d.fld = r.refField ∧ d.target = some i)

/-- `await ref.ref_class.find({ref.ref_field: self.id}).all()`. -/
def matchSet (db : List Dep) (r : ModelRef) (i : String) : List Dep :=
  db.filter (fun d => matchesB d r i)

/-- `set.add` with insertion order made explicit (only membership matters:
the Python `ref_classes` is an unordered set). -/
def insertName (ns : List String) (n : String) : List String :=
  if n ∈ ns then ns else ns ++ [n]

/-- The loop of `_check_refs_on_destroy`: RAISE references collect their
dependent class name when dependents exist; CASCADE references bulk-delete
matching dependents (`destroy_many`) *during the loop*; DETACH references
bulk-null the referencing field (`update_many`) during the loop.  Returns the
dependent store after the loop together with the collected names. -/
def checkRefsGo (i : String) :
    List ModelRef → List Dep → List String → List Dep × List String
  | [], db, names => (db, names)
  | r :: rest, db, names =>
    match r.onDestroy with
    | .raise =>
      let names' :=
        if (matchSet db r i).isEmpty then names
        else insertName names r.refClsName
      checkRefsGo i rest db names'
    | .cascade =>
      checkRefsGo i rest (db.filter fun d => !(matchesB d r i)) names
    | .detach =>
      checkRefsGo i rest
        (db.map fun d => if matchesB d r i then { d with target := none } else d)
        names

/-- `_check_refs_on_destroy` proper: run the loop, then raise
`ObjectHasReferences` (carrying the collected class names) iff any RAISE
reference found dependents.  `some names` is the raised exception. -/
def checkRefsOnDestroy (refs : List ModelRef) (i : String) (db : List Dep) :
    List Dep × Option (List String) :=
  let r := checkRefsGo i refs db []
  (r.1, if r.2.isEmpty then none else some r.2)

/-- Persistent storage: dependent rows and owner rows `(class, id)`. -/
structure World : Type where
  deps : List Dep
  owners : List (String × String)
deriving DecidableEq

/-- The owner record as `destroy` sees it. -/
structure DModel : Type where
  clsName : String
  id : Option String
  refs : List ModelRef
deriving DecidableEq

/-- `BaseModel.destroy` (base_model.py:113-127), default callbacks: a new
record is a no-op; otherwise `_before_delete` runs the destroy-policy engine —
when it raises, the exception propagates before `invalidate` and
`_delete_from_db`, so the owner row and `id` are untouched (the cascade and
detach mutations already performed inside the loop remain); on success cache
invalidation (not modelled here — it touches only cache tiers), the owner row
is deleted and `id` cleared. -/
def destroy (m : DModel) (w : World) :
    DModel × World × Option (List String) :=
  match m.id with
  | none => (m, w, none)
  | some i =>
    let checked := checkRefsOnDestroy m.refs i w.deps
    match checked.2 with
    | some names => (m, ⟨checked.1, w.owners⟩, some names)
    | none =>
      ({ m with id := none },
       ⟨checked.1, w.owners.filter (fun o => o ≠ (m.clsName, i))⟩,
       none)

/-- Reference evaluation against a *fixed* dependent store: what the names
would be if no loop iteration mutated storage.  Used to state C3: when the
`(class, field)` pairs of the references are pairwise distinct, the threaded
loop computes the same names. -/
def raiseNames (i : String) :
    List ModelRef → List Dep → List String → List String
  | [], _, names => names
  | r :: rest, db, names =>
    match r.onDestroy with
    | .raise =>
      raiseNames i rest db
        (if (matchSet db r i).isEmpty then names
         else insertName names r.refClsName)
    | _ => raiseNames i rest db names

/-- The `(dependent class, field)` pair identifying a reference's query. -/
def pairKey (r : ModelRef) : String × String := (r.refClsName, r.refField)

/-! ## Store lemmas -/

theorem lookupS_delS {V : Type} (st : Store V) (k' kk : String) :
    lookupS (delS st k') kk = if k' = kk then none else lookupS st kk := by
  induction st with
  | nil => simp [delS, lookupS]
  | cons p rest ih =>
    simp only [delS, List.filter_cons] at ih ⊢
    by_cases hpk : p.1 = k'
    · subst hpk
      rw [if_neg (by simp)]
      rw [ih]
      split
      · rfl
      · rename_i hk
        simp [lookupS, hk]
    · rw [if_pos (by simp [hpk])]
      by_cases hp : p.1 = kk
      · have hk : ¬ k' = kk := fun h => hpk (by rw [hp, h])
        simp [lookupS, hp, hk]
      · simp only [lookupS, hp, if_false]
        exact ih

theorem foldl_delS_none {V : Type} (keys : List String) (st : Store V)
    (kk : String) (h : lookupS st kk = none) :
    lookupS (keys.foldl delS st) kk = none := by
  induction keys generalizing st with
  | nil => exact h
  | cons k' rest ih =>
    rw [List.foldl_cons]
    apply ih
    rw [lookupS_delS]
    split <;> simp [h]

theorem foldl_delS_mem {V : Type} (keys : List String) (st : Store V)
    (kk : String) (h : kk ∈ keys) :
    lookupS (keys.foldl delS st) kk = none := by
  induction keys generalizing st with
  | nil => cases h
  | cons k' rest ih =>
    rcases List.mem_cons.mp h with rfl | hmem
    · rw [List.foldl_cons]
      apply foldl_delS_none
      rw [lookupS_delS]
      simp
    · exact ih _ hmem

/-! ## C8 — set/get round trip -/

/-- C8 (counterexample): the claim asserts the round trip even "when no
ambient execution scope is present for the scope-local variant"; but with no
scope `RequestLocalCache.set` is a dropped write and `get` returns absent,
so `set(k, 5)` then `get(k)` does not return 5. -/
theorem c8_roundtrip_counterexample :
    RequestLocalCache.get
      (RequestLocalCache.set (none : Option (Store Nat)) "user.Dylan" 5)
      "user.Dylan" ≠ some 5 := by
  decide

/-- C8 (amended): `set(k, v)` followed by `get(k)` returns `v` for the
in-process map backend in every state and for the scope-local backend
whenever a scope is present; with no ambient scope the scope-local `set` is a
no-op and `get` returns absent. -/
theorem c8_roundtrip_amended {V : Type} (st scope : Store V) (k : String)
    (v : V) :
    SimpleCache.get (SimpleCache.set st k v) k = some v ∧
    RequestLocalCache.get (RequestLocalCache.set (some scope) k v) k = some v ∧
    RequestLocalCache.set (none : Option (Store V)) k v = none ∧
    RequestLocalCache.get (none : Option (Store V)) k = none := by
  refine ⟨?_, ?_, rfl, rfl⟩
  · exact lookupS_setS_self st k v
  · exact lookupS_setS_self scope k v

/-! ## C9 — delete's return value -/

/-- C9 (counterexample): `delete` on an absent key does **not** return the
boolean `false` for the in-process map, scope-local, or no-op backend — all
three are annotated `-> None` and return Python `None`, which is not a
boolean. -/
theorem c9_delete_counterexample :
    (SimpleCache.delete ([] : Store Nat) "user.Dylan").1 ≠ PyRet.bool false ∧
    (RequestLocalCache.delete (some ([] : Store Nat)) "user.Dylan").1 ≠
      PyRet.bool false ∧
    NoCache.delete "user.Dylan" ≠ PyRet.bool false := by
  decide

/-- C9 (amended): the in-process map, scope-local and no-op backends' `delete`
always returns Python `None` — whether anything was removed is not reported
(the key is still removed from a map store when present); only the sharded
backend's fan-out `delete` returns a boolean, true iff some node deleted. -/
theorem c9_delete_amended {V : Type} (st : Store V) (scope : Option (Store V))
    (k : String) (nodeResults : List Bool) :
    SimpleCache.delete st k = (PyRet.none, delS st k) ∧
    (RequestLocalCache.delete scope k).1 = PyRet.none ∧
    NoCache.delete k = PyRet.none ∧
    (MemcachedCache.delete nodeResults = true ↔ true ∈ nodeResults) := by
  refine ⟨rfl, ?_, rfl, ?_⟩
  · cases scope <;> rfl
  · simp [MemcachedCache.delete, List.any_eq_true]

/-! ## C6 / C7 — sharded placement -/

theorem masked_shift_eq (c : Nat) :
    ((c &&& 0xffffffff) >>> 16) &&& 0x7fff = (c >>> 16) &&& 0x7fff := by
  apply Nat.eq_of_testBit_eq
  intro i
  have h32 : (0xffffffff : Nat) = 2 ^ 32 - 1 := by norm_num
  have h15 : (0x7fff : Nat) = 2 ^ 15 - 1 := by norm_num
  simp only [Nat.testBit_and, Nat.testBit_shiftRight, h32, h15,
    Nat.testBit_two_pow_sub_one]
  by_cases hi : i < 15
  · have : 16 + i < 32 := by omega
    simp [hi, this]
  · simp [hi]

/-- C6: for every key and node list, the first-attempt placement of
`_get_backend` selects `nodes[hash mod node_count]` where the hash is exactly
the claim's `(CRC32(key) >> 16) & 0x7FFF` with a zero result replaced by 1
(the code's extra `& 0xffffffff` mask is redundant); being an equation in the
key and node list alone, the placement is deterministic across repeated
calls. -/
theorem c6_first_attempt_placement {α : Type} (nodes : List α)
    (key : List Nat) :
    server_hash_func key = placementHashSpec key ∧
    getBackend nodes key 0 =
      nodes.get? (placementHashSpec key % nodes.length) := by
  have hhash : server_hash_func key = placementHashSpec key := by
    unfold server_hash_func placementHashSpec
    rw [masked_shift_eq]
  refine ⟨hhash, ?_⟩
  unfold getBackend
  cases nodes with
  | nil => simp
  | cons a rest => simp [hhash]

set_option maxRecDepth 8000 in
/-- C7 (counterexample): at key `"a"` (bytes `[97]`, first-attempt hash
26807) and retry 1, the code re-hashes the *concatenation* `"26807" ++ "1"`,
not the string of the arithmetic sum `26807 + 1`, and the two disagree; and
with a single-node list the retry selects the *same* node again, refuting
"a different node selection on each retry". -/
theorem c7_retry_hash_counterexample :
    rederivedHash (server_hash_func [97]) 1 ≠
      server_hash_func (decimalBytes (server_hash_func [97] + 1)) ∧
    getBackend [0] [97] 1 = getBackend [0] [97] 0 := by
  constructor
  · decide
  · decide

/-- C7 (amended): on retry `r > 0`, `_get_backend` re-derives the hash as the
CRC32 placement hash of the *decimal string of the first-attempt hash
concatenated with the decimal string of `r`*, and selects
`nodes[rederived mod node_count]`; the re-derivation is a function of the
original hash and the retry count only, but the resulting node may coincide
with a previous attempt's node. -/
theorem c7_retry_hash_amended {α : Type} (nodes : List α) (key : List Nat)
    (r : Nat) (hr : r > 0) :
    getBackend nodes key r =
      nodes.get? (rederivedHash (server_hash_func key) r % nodes.length) := by
  unfold getBackend
  cases nodes with
  | nil => simp
  | cons a rest => simp [hr]

/-- C7 amended witness: the characterization evaluated at key `"a"`,
two nodes, retry 1. -/
theorem c7_retry_hash_amended_witness :
    getBackend [0, 1] [97] 1 =
      [0, 1].get? (rederivedHash (server_hash_func [97]) 1 % [0, 1].length) :=
  c7_retry_hash_amended [0, 1] [97] 1 (by decide)

/-! ## C5 — public get/set under faults -/

theorem pickLoop_all_error {V : Type} (net : Nat → Except Fault V) (e : Fault)
    (h : ∀ n, net n = .error e) (fuel r : Nat) :
    pickLoop net fuel r = .error e := by
  induction fuel generalizing r with
  | zero => rw [pickLoop, h r]
  | succ f ih => rw [pickLoop, h r]; exact ih (r + 1)

/-- C5 (counterexample): with every attempt failing on a transport fault, the
retry budget is exhausted and the fault propagates out of the public `get`
and `set` — `get` does not degrade to absent and `set` is not a silent
no-op (only `aiomcache.ValidationException` is caught there). -/
theorem c5_transport_counterexample :
    MemcachedCache.get (V := Nat) (fun _ => Except.error Fault.transport) ≠
      Except.ok none ∧
    MemcachedCache.set (fun _ => Except.error Fault.transport) ≠
      Except.ok () := by
  have hg : MemcachedCache.get (V := Nat)
      (fun _ => Except.error Fault.transport) = Except.error Fault.transport :=
    rfl
  have hs : MemcachedCache.set (fun _ => Except.error Fault.transport) =
      Except.error Fault.transport := rfl
  rw [hg, hs]
  exact ⟨by simp, by simp⟩

/-- C5 (amended): the public `get`/`set` absorb *validation* faults — `get`
degrades to absent, `set` to a silent no-op — and pass successes through; a
*transport* fault that survives the whole retry budget propagates out of both
`get` and `set`. -/
theorem c5_fault_handling_amended {V : Type}
    (net : Nat → Except Fault (Option V)) (netS : Nat → Except Fault Unit) :
    (pickAndRetry net = .error .validation →
       MemcachedCache.get net = .ok none) ∧
    (∀ v, pickAndRetry net = .ok v → MemcachedCache.get net = .ok v) ∧
    ((∀ r, net r = .error .transport) →
       MemcachedCache.get net = .error .transport) ∧
    (pickAndRetry netS = .error .validation →
       MemcachedCache.set netS = .ok ()) ∧
    ((∀ r, netS r = .error .transport) →
       MemcachedCache.set netS = .error .transport) := by
  refine ⟨?_, ?_, ?_, ?_, ?_⟩
  · intro h
    unfold MemcachedCache.get
    rw [h]
  · intro v h
    unfold MemcachedCache.get
    rw [h]
  · intro h
    unfold MemcachedCache.get
    rw [show pickAndRetry net = .error .transport from
      pickLoop_all_error net .transport h MAX_RETRIES 0]
  · intro h
    unfold MemcachedCache.set
    rw [h]
  · intro h
    unfold MemcachedCache.set
    rw [show pickAndRetry netS = .error .transport from
      pickLoop_all_error netS .transport h MAX_RETRIES 0]

/-- C5 amended witness: an always-validation-failing transport degrades `get`
to absent; an always-transport-failing one propagates out of `set`. -/
theorem c5_fault_handling_amended_witness :
    MemcachedCache.get (V := Nat) (fun _ => Except.error Fault.validation) =
      Except.ok none ∧
    MemcachedCache.set (fun _ => Except.error Fault.transport) =
      Except.error Fault.transport :=
  ⟨(c5_fault_handling_amended (fun _ => Except.error Fault.validation)
      (fun _ => Except.error Fault.transport)).1 rfl,
   (c5_fault_handling_amended (V := Nat)
      (fun _ => Except.error Fault.validation)
      (fun _ => Except.error Fault.transport)).2.2.2.2 (fun _ => rfl)⟩

/-! ## C1 / C10 — two-level read path -/

/-- C1: the two-level read path checks L1 first and returns the L1 value on a
hit with no writes; otherwise checks L2 and, on a hit, writes the L2 value
into L1 before returning it; on a full miss it invokes the loader
(`_cache_get`) or the wrapped method (`model_cached_method`) and writes the
resulting value to both tiers before returning it.  (In `_cache_get` the
full-miss write happens for a present — truthy — loader result; the wrapped
method's value is written unconditionally.) -/
theorem c1_two_level_read_path {V D : Type} (l1 l2 : Store V)
    (w1 w2 : Store (Option D)) (k : String) (loaded : Option V)
    (computed : Option D) :
    (∀ v, lookupS l1 k = some v →
       cacheGet l1 l2 k loaded = ⟨some v, l1, l2, false⟩) ∧
    (lookupS l1 k = none → ∀ v, lookupS l2 k = some v →
       cacheGet l1 l2 k loaded = ⟨some v, setS l1 k v, l2, false⟩) ∧
    (lookupS l1 k = none → lookupS l2 k = none → ∀ v, loaded = some v →
       cacheGet l1 l2 k loaded = ⟨some v, setS l1 k v, setS l2 k v, true⟩) ∧
    (∀ v, wrapperRead w1 k = some v →
       methodWrapper w1 w2 k computed = ⟨some v, w1, w2, false⟩) ∧
    (wrapperRead w1 k = none → ∀ v, wrapperRead w2 k = some v →
       methodWrapper w1 w2 k computed =
         ⟨some v, setS w1 k (some v), w2, false⟩) ∧
    (wrapperRead w1 k = none → wrapperRead w2 k = none →
       methodWrapper w1 w2 k computed =
         ⟨computed, setS w1 k computed, setS w2 k computed, true⟩) := by
  refine ⟨?_, ?_, ?_, ?_, ?_, ?_⟩
  · intro v h
    simp [cacheGet, h]
  · intro h1 v h2
    simp [cacheGet, h1, h2]
  · intro h1 h2 v h3
    simp [cacheGet, h1, h2, h3]
  · intro v h
    simp [methodWrapper, h]
  · intro h1 v h2
    simp [methodWrapper, h1, h2]
  · intro h1 h2
    simp [methodWrapper, h1, h2]

/-- C1 witness: each branch of the read path evaluated at concrete stores —
an L1 hit, an L2 hit promoted into L1, a full miss written through both
tiers, and a wrapped-method miss. -/
theorem c1_two_level_read_path_witness :
    cacheGet [("user.Dylan", (1 : Nat))] [] "user.Dylan" none =
      ⟨some 1, [("user.Dylan", 1)], [], false⟩ ∧
    cacheGet ([] : Store Nat) [("user.Dylan", 2)] "user.Dylan" none =
      ⟨some 2, setS [] "user.Dylan" 2, [("user.Dylan", 2)], false⟩ ∧
    cacheGet ([] : Store Nat) [] "user.Dylan" (some 3) =
      ⟨some 3, setS [] "user.Dylan" 3, setS [] "user.Dylan" 3, true⟩ ∧
    methodWrapper ([] : Store (Option Nat)) [] "user.1.full_name" (some 4) =
      ⟨some 4, setS [] "user.1.full_name" (some 4),
       setS [] "user.1.full_name" (some 4), true⟩ :=
  ⟨(c1_two_level_read_path [("user.Dylan", 1)] [] ([] : Store (Option Nat))
      [] "user.Dylan" none none).1 1 (by decide),
   (c1_two_level_read_path ([] : Store Nat) [("user.Dylan", 2)]
      ([] : Store (Option Nat)) [] "user.Dylan" none none).2.1 rfl 2
      (by decide),
   (c1_two_level_read_path ([] : Store Nat) [] ([] : Store (Option Nat)) []
      "user.Dylan" (some 3) none).2.2.1 rfl rfl 3 rfl,
   (c1_two_level_read_path ([] : Store Nat) [] ([] : Store (Option Nat)) []
      "user.1.full_name" none (some 4)).2.2.2.2.2 rfl rfl⟩

/-- C10: when the wrapped method computes `None`, the wrapper still writes it
through both tiers, but a stored `None` reads back as a miss
(`dict.get(key) is not None` cannot tell them apart), so every subsequent
call re-executes the wrapped method and returns its fresh result. -/
theorem c10_stored_none_is_miss {D : Type} (l1 l2 : Store (Option D))
    (k : String) (h1 : wrapperRead l1 k = none)
    (h2 : wrapperRead l2 k = none) :
    methodWrapper l1 l2 k none =
      ⟨none, setS l1 k none, setS l2 k none, true⟩ ∧
    lookupS (setS l1 k none) k = some none ∧
    lookupS (setS l2 k none) k = some none ∧
    (∀ c',
      (methodWrapper (setS l1 k none) (setS l2 k none) k c').methodCalled =
        true ∧
      (methodWrapper (setS l1 k none) (setS l2 k none) k c').value = c') := by
  have hw1 : wrapperRead (setS l1 k none) k = none := by
    simp [wrapperRead, lookupS_setS_self]
  have hw2 : wrapperRead (setS l2 k none) k = none := by
    simp [wrapperRead, lookupS_setS_self]
  refine ⟨by simp [methodWrapper, h1, h2], lookupS_setS_self l1 k none,
    lookupS_setS_self l2 k none, fun c' => ?_⟩
  constructor
  · simp [methodWrapper, hw1, hw2]
  · simp [methodWrapper, hw1, hw2]

/-- C10 witness: the stored-`None` scenario at empty tiers and the method key
`"user.1.full_name"`; the follow-up call with a fresh computed value 7
re-executes and returns it. -/
theorem c10_stored_none_is_miss_witness :
    methodWrapper ([] : Store (Option Nat)) [] "user.1.full_name" none =
      ⟨none, setS [] "user.1.full_name" none,
       setS [] "user.1.full_name" none, true⟩ ∧
    lookupS (setS ([] : Store (Option Nat)) "user.1.full_name" none)
      "user.1.full_name" = some none ∧
    lookupS (setS ([] : Store (Option Nat)) "user.1.full_name" none)
      "user.1.full_name" = some none ∧
    (∀ c',
      (methodWrapper (setS ([] : Store (Option Nat)) "user.1.full_name" none)
        (setS [] "user.1.full_name" none) "user.1.full_name" c').methodCalled =
        true ∧
      (methodWrapper (setS ([] : Store (Option Nat)) "user.1.full_name" none)
        (setS [] "user.1.full_name" none) "user.1.full_name" c').value = c') :=
  c10_stored_none_is_miss [] [] "user.1.full_name" rfl rfl

/-! ## C2 — invalidation on save -/

/-- What C2 asserts of a persisted record with id `i`: one two-tier deletion
of `"{collection}.{value}"` per cache-key field with the value drawn from the
initial snapshot; one of `"{collection}.{id}.{method}"` per memoized method;
key derivation independent of the *current* field values; all deletions
before the db write and the snapshot refresh; deletions applied whatever the
caches hold; and the snapshot refreshed from the current fields afterwards. -/
def SaveInvalidationSpec (m : MModel) (newId i : String) : Prop :=
  (∀ f ∈ m.cacheKeyFields, ∀ v, (lookupS m.initialState f).join = some v →
      (m.collection ++ "." ++ v) ∈ invalidationKeys m) ∧
  (∀ meth ∈ m.cachedMethods,
      (m.collection ++ "." ++ i ++ "." ++ meth) ∈ invalidationKeys m) ∧
  (∀ cur', invalidationKeys { m with fieldsCur := cur' } =
      invalidationKeys m) ∧
  ((save m newId true).2 = invalidateEvents m ++ [Ev.dbWrite, Ev.snapRefresh]) ∧
  (∀ kk ∈ invalidationKeys m,
      Ev.delL1 kk ∈ invalidateEvents m ∧ Ev.delL2 kk ∈ invalidateEvents m) ∧
  (∀ e ∈ invalidateEvents m, ∃ kk, e = Ev.delL1 kk ∨ e = Ev.delL2 kk) ∧
  (∀ (V : Type) (l1 l2 : Store V), ∀ kk ∈ invalidationKeys m,
      lookupS (applyInvalidate m l1 l2).1 kk = none ∧
      lookupS (applyInvalidate m l1 l2).2 kk = none) ∧
  ((save m newId true).1.initialState = m.fieldsCur)

/-- C2: cache invalidation on save deletes, from both tiers, one
`"{collection}.{value}"` entry per cache-key field — the value taken from the
pre-save `_initial_state` snapshot, not the current field value — plus one
`"{collection}.{id}.{method}"` entry per memoized method; it happens before
the persistence write and before the snapshot refresh, and unconditionally
with respect to the caches' contents. -/
theorem c2_save_invalidation (m : MModel) (newId i : String)
    (hid : m.id = some i) : SaveInvalidationSpec m newId i := by
  refine ⟨?_, ?_, ?_, rfl, ?_, ?_, ?_, rfl⟩
  · intro f hf v hv
    apply List.mem_append_left
    exact List.mem_filterMap.mpr ⟨f, hf, by rw [hv]⟩
  · intro meth hm
    apply List.mem_append_right
    rw [hid]
    exact List.mem_map.mpr ⟨meth, hm, rfl⟩
  · intro cur'
    rfl
  · intro kk hkk
    unfold invalidateEvents
    exact ⟨List.mem_flatMap.mpr ⟨kk, hkk, by simp⟩,
           List.mem_flatMap.mpr ⟨kk, hkk, by simp⟩⟩
  · intro e he
    rcases List.mem_flatMap.mp he with ⟨kk, _, hin⟩
    simp only [List.mem_cons, List.mem_singleton] at hin
    rcases hin with rfl | hin
    · exact ⟨kk, Or.inl rfl⟩
    · rcases hin with rfl | hfalse
      · exact ⟨kk, Or.inr rfl⟩
      · cases hfalse
  · intro V l1 l2 kk hkk
    exact ⟨foldl_delS_mem _ _ _ hkk, foldl_delS_mem _ _ _ hkk⟩

/-- C2 witness: a persisted `user` record whose key field changed from
`"Dylan"` (initial snapshot) to `"Zimmerman"` (current), with one memoized
method `full_name`. -/
theorem c2_save_invalidation_witness :
    SaveInvalidationSpec
      ⟨"user", some "42", ["last_name"], ["full_name"],
       [("last_name", some "Zimmerman")], [("last_name", some "Dylan")]⟩
      "fresh-id" "42" :=
  c2_save_invalidation _ "fresh-id" "42" rfl

/-! ## C3 / C4 — destroy-policy engine lemmas -/

theorem mem_insertName (ns : List String) (n c : String) :
    c ∈ insertName ns n ↔ c ∈ ns ∨ c = n := by
  unfold insertName
  split
  · rename_i h
    constructor
    · exact Or.inl
    · rintro (hc | rfl)
      · exact hc
      · exact h
  · simp [List.mem_append]

theorem matchesB_true_iff (d : Dep) (r : ModelRef) (i : String) :
    matchesB d r i = true ↔
      d.cls = r.refClsName ∧ d.fld = r.refField ∧ d.target = some i := by
  simp [matchesB]

theorem matchesB_disjoint {r r2 : ModelRef} (hne : pairKey r ≠ pairKey r2)
    (d : Dep) (i : String) (h2 : matchesB d r2 i = true) :
    matchesB d r i = false := by
  rcases (matchesB_true_iff d r2 i).mp h2 with ⟨hc, hf, _⟩
  cases hb : matchesB d r i
  · rfl
  · rcases (matchesB_true_iff d r i).mp hb with ⟨hc', hf', _⟩
    exact absurd (by rw [pairKey, pairKey, ← hc, ← hf, hc', hf']) hne

theorem matchSet_cascade_eq (i : String) (r r2 : ModelRef)
    (hne : pairKey r ≠ pairKey r2) (db : List Dep) :
    matchSet (db.filter fun d => !(matchesB d r i)) r2 i =
      matchSet db r2 i := by
  unfold matchSet
  induction db with
  | nil => rfl
  | cons d rest ih =>
    rw [List.filter_cons]
    by_cases hA : matchesB d r i = true
    · rw [if_neg (by simp [hA])]
      rw [ih]
      have hB : matchesB d r2 i = false :=
        matchesB_disjoint (fun h => hne h.symm) d i hA
      rw [List.filter_cons, if_neg (by simp [hB])]
    · have hA' : matchesB d r i = false := by
        cases hb : matchesB d r i
        · rfl
        · exact absurd hb hA
      rw [if_pos (by simp [hA'])]
      rw [List.filter_cons, List.filter_cons, ih]

theorem matchSet_detach_eq (i : String) (r r2 : ModelRef)
    (hne : pairKey r ≠ pairKey r2) (db : List Dep) :
    matchSet
      (db.map fun d =>
        if matchesB d r i then { d with target := none } else d) r2 i =
      matchSet db r2 i := by
  unfold matchSet
  induction db with
  | nil => rfl
  | cons d rest ih =>
    rw [List.map_cons]
    by_cases hA : matchesB d r i = true
    · rw [if_pos hA]
      rw [List.filter_cons, List.filter_cons]
      have hB : matchesB d r2 i = false :=
        matchesB_disjoint (fun h => hne h.symm) d i hA
      have hB' : matchesB { d with target := none } r2 i = false := by
        simp [matchesB]
      rw [if_neg (by simp [hB']), if_neg (by simp [hB]), ih]
    · rw [if_neg hA]
      rw [List.filter_cons, List.filter_cons, ih]

theorem raiseNames_congr (i : String) (refs : List ModelRef)
    (db1 db2 : List Dep) (acc : List String)
    (h : ∀ r ∈ refs, matchSet db1 r i = matchSet db2 r i) :
    raiseNames i refs db1 acc = raiseNames i refs db2 acc := by
  induction refs generalizing acc with
  | nil => rfl
  | cons r rest ih =>
    have hhd := h r (List.mem_cons_self r rest)
    have htl : ∀ r' ∈ rest, matchSet db1 r' i = matchSet db2 r' i :=
      fun r' h' => h r' (List.mem_cons_of_mem r h')
    cases hr : r.onDestroy <;> simp only [raiseNames, hr]
    · rw [hhd]
      exact ih _ htl
    · exact ih _ htl
    · exact ih _ htl

theorem checkRefsGo_snd (i : String) (refs : List ModelRef)
    (hd : refs.Pairwise fun a b => pairKey a ≠ pairKey b)
    (db : List Dep) (acc : List String) :
    (checkRefsGo i refs db acc).2 = raiseNames i refs db acc := by
  induction refs generalizing db acc with
  | nil => rfl
  | cons r rest ih =>
    have hd' := (List.pairwise_cons.mp hd).2
    have hhead := (List.pairwise_cons.mp hd).1
    cases hr : r.onDestroy <;> simp only [checkRefsGo, raiseNames, hr]
    · exact ih hd' db _
    · rw [ih hd' _ acc]
      exact raiseNames_congr i rest _ db acc
        (fun r' h' => matchSet_cascade_eq i r r' (hhead r' h') db)
    · rw [ih hd' _ acc]
      exact raiseNames_congr i rest _ db acc
        (fun r' h' => matchSet_detach_eq i r r' (hhead r' h') db)

theorem mem_raiseNames (i : String) (refs : List ModelRef) (db : List Dep)
    (acc : List String) (c : String) :
    c ∈ raiseNames i refs db acc ↔
      c ∈ acc ∨ ∃ r ∈ refs, r.onDestroy = OnDestroy.raise ∧
        matchSet db r i ≠ [] ∧ r.refClsName = c := by
  induction refs generalizing acc with
  | nil => simp [raiseNames]
  | cons r rest ih =>
    cases hr : r.onDestroy <;> simp only [raiseNames, hr]
    · by_cases he : (matchSet db r i).isEmpty
      · rw [if_pos he]
        rw [ih]
        have hempty : matchSet db r i = [] := by
          cases hm : matchSet db r i
          · rfl
          · rw [hm] at he; cases he
        constructor
        · rintro (h | ⟨r', hr', hrest⟩)
          · exact Or.inl h
          · exact Or.inr ⟨r', List.mem_cons_of_mem r hr', hrest⟩
        · rintro (h | ⟨r', hr', hraise, hne, hc⟩)
          · exact Or.inl h
          · rcases List.mem_cons.mp hr' with rfl | hr''
            · exact absurd hempty hne
            · exact Or.inr ⟨r', hr'', hraise, hne, hc⟩
      · rw [if_neg he]
        rw [ih]
        have hne : matchSet db r i ≠ [] := by
          intro hm; rw [hm] at he; exact he rfl
        rw [mem_insertName]
        constructor
        · rintro ((h | rfl) | ⟨r', hr', hrest⟩)
          · exact Or.inl h
          · exact Or.inr ⟨r, List.mem_cons_self r rest, hr, hne, rfl⟩
          · exact Or.inr ⟨r', List.mem_cons_of_mem r hr', hrest⟩
        · rintro (h | ⟨r', hr', hraise, hne', hc⟩)
          · exact Or.inl (Or.inl h)
          · rcases List.mem_cons.mp hr' with rfl | hr''
            · exact Or.inl (Or.inr hc.symm)
            · exact Or.inr ⟨r', hr'', hraise, hne', hc⟩
    · rw [ih]
      constructor
      · rintro (h | ⟨r', hr', hrest⟩)
        · exact Or.inl h
        · exact Or.inr ⟨r', List.mem_cons_of_mem r hr', hrest⟩
      · rintro (h | ⟨r', hr', hraise, hne', hc⟩)
        · exact Or.inl h
        · rcases List.mem_cons.mp hr' with rfl | hr''
          · rw [hr] at hraise; cases hraise
          · exact Or.inr ⟨r', hr'', hraise, hne', hc⟩
    · rw [ih]
      constructor
      · rintro (h | ⟨r', hr', hrest⟩)
        · exact Or.inl h
        · exact Or.inr ⟨r', List.mem_cons_of_mem r hr', hrest⟩
      · rintro (h | ⟨r', hr', hraise, hne', hc⟩)
        · exact Or.inl h
        · rcases List.mem_cons.mp hr' with rfl | hr''
          · rw [hr] at hraise; cases hraise
          · exact Or.inr ⟨r', hr'', hraise, hne', hc⟩

/-- What C3 asserts of a persisted owner with id `i` blocked by Raise-policy
dependents: destroy raises `ObjectHasReferences` carrying a list of names
that contains the dependent class of **every** Raise reference with matching
dependents and nothing else; the owner object is returned unchanged (id kept)
and its storage row survives. -/
def DestroyRaiseSpec (m : DModel) (w : World) (i : String) : Prop :=
  ∃ names,
    (destroy m w).2.2 = some names ∧
    (destroy m w).1 = m ∧
    ((destroy m w).2.1).owners = w.owners ∧
    (∀ r ∈ m.refs, r.onDestroy = OnDestroy.raise → matchSet w.deps r i ≠ [] →
        r.refClsName ∈ names) ∧
    (∀ c ∈ names, ∃ r ∈ m.refs, r.onDestroy = OnDestroy.raise ∧
        matchSet w.deps r i ≠ [] ∧ r.refClsName = c)

/-- C3: a destroy of a persisted record blocked by at least one Raise-policy
reference with existing dependents fails with an `ObjectHasReferences`
integrity failure naming every dependent type that still holds references —
all Raise references are evaluated and the full violating set collected
before raising — and the owner row stays in storage with its identity kept.
(The references of one owner type query pairwise-distinct
`(dependent class, field)` pairs, as registered from distinct reference-field
declarations.) -/
theorem c3_destroy_raise_blocks (m : DModel) (w : World) (i : String)
    (hid : m.id = some i)
    (hdist : m.refs.Pairwise fun a b => pairKey a ≠ pairKey b)
    (hviol : ∃ r ∈ m.refs, r.onDestroy = OnDestroy.raise ∧
        matchSet w.deps r i ≠ []) :
    DestroyRaiseSpec m w i := by
  have hsnd : (checkRefsGo i m.refs w.deps []).2 =
      raiseNames i m.refs w.deps [] := checkRefsGo_snd i m.refs hdist w.deps []
  obtain ⟨r0, hr0mem, hr0raise, hr0ne⟩ := hviol
  have hmem : r0.refClsName ∈ raiseNames i m.refs w.deps [] :=
    (mem_raiseNames i m.refs w.deps [] r0.refClsName).mpr
      (Or.inr ⟨r0, hr0mem, hr0raise, hr0ne, rfl⟩)
  have hne : raiseNames i m.refs w.deps [] ≠ [] := by
    intro h; rw [h] at hmem; cases hmem
  have hEmpty : (raiseNames i m.refs w.deps []).isEmpty = false := by
    cases hn : raiseNames i m.refs w.deps []
    · exact absurd hn hne
    · rfl
  have hch : checkRefsOnDestroy m.refs i w.deps =
      ((checkRefsGo i m.refs w.deps []).1,
       some (raiseNames i m.refs w.deps [])) := by
    simp [checkRefsOnDestroy, hsnd, hEmpty]
  refine ⟨raiseNames i m.refs w.deps [], ?_, ?_, ?_, ?_, ?_⟩
  · simp [destroy, hid, hch]
  · simp [destroy, hid, hch]
  · simp [destroy, hid, hch]
  · intro r hr hraise hne'
    exact (mem_raiseNames i m.refs w.deps [] r.refClsName).mpr
      (Or.inr ⟨r, hr, hraise, hne', rfl⟩)
  · intro c hc
    rcases (mem_raiseNames i m.refs w.deps [] c).mp hc with h | h
    · cases h
    · exact h

/-- C3 witness: a `master` with two Raise references (`Minion.master_id`,
`SubMinion.master_id`), one existing `Minion` dependent. -/
theorem c3_destroy_raise_blocks_witness :
    DestroyRaiseSpec
      ⟨"master", some "1",
       [⟨"Minion", "master_id", OnDestroy.raise⟩,
        ⟨"SubMinion", "master_id", OnDestroy.raise⟩]⟩
      ⟨[⟨"Minion", "master_id", some "1"⟩], [("master", "1")]⟩ "1" :=
  c3_destroy_raise_blocks _ _ "1" rfl (by decide) (by decide)

/-- C4 (counterexample): an owner with a Cascade reference (one `Minion`
dependent) and a Raise reference (one `Boss` dependent): destroy raises the
integrity failure, yet the `Minion` dependent — present in storage before the
call — has already been deleted by the cascade when the failure is raised,
refuting "no record has been deleted or updated at the moment the failure is
raised". -/
theorem c4_mutation_before_raise_counterexample :
    ((destroy
        ⟨"master", some "1",
         [⟨"Minion", "minion_master", OnDestroy.cascade⟩,
          ⟨"Boss", "boss_master", OnDestroy.raise⟩]⟩
        ⟨[⟨"Minion", "minion_master", some "1"⟩,
          ⟨"Boss", "boss_master", some "1"⟩],
         [("master", "1")]⟩).2.2).isSome = true ∧
    (⟨"Minion", "minion_master", some "1"⟩ : Dep) ∈
      ([⟨"Minion", "minion_master", some "1"⟩,
        ⟨"Boss", "boss_master", some "1"⟩] : List Dep) ∧
    (⟨"Minion", "minion_master", some "1"⟩ : Dep) ∉
      ((destroy
          ⟨"master", some "1",
           [⟨"Minion", "minion_master", OnDestroy.cascade⟩,
            ⟨"Boss", "boss_master", OnDestroy.raise⟩]⟩
          ⟨[⟨"Minion", "minion_master", some "1"⟩,
            ⟨"Boss", "boss_master", some "1"⟩],
           [("master", "1")]⟩).2.1).deps := by
  decide

/-- C4 (amended): whenever destroy raises the integrity failure, the owner
itself is untouched — returned unchanged, identity kept, owner rows intact —
but Cascade- and Detach-policy references of the same owner are processed in
the same loop, so their dependents may already have been deleted or updated
when the failure is raised. -/
theorem c4_owner_untouched_amended (m : DModel) (w : World) (m' : DModel)
    (w' : World) (names : List String)
    (h : destroy m w = (m', w', some names)) :
    m' = m ∧ w'.owners = w.owners ∧ m'.id = m.id := by
  cases hid : m.id with
  | none => simp [destroy, hid] at h
  | some i =>
    simp only [destroy, hid] at h
    cases hch : (checkRefsOnDestroy m.refs i w.deps).2 with
    | none =>
      rw [hch] at h
      simp at h
    | some ns =>
      rw [hch] at h
      simp only [] at h
      injection h with h1 h23
      injection h23 with h2 h3
      refine ⟨h1.symm, ?_, by rw [← h1]; exact hid⟩
      rw [← h2]

/-- C4 amended witness: the mixed-policy scenario evaluated concretely — the
failure is raised and the owner is returned unchanged with its rows intact. -/
theorem c4_owner_untouched_amended_witness :
    (destroy
        ⟨"master", some "7",
         [⟨"Worker", "boss_id", OnDestroy.detach⟩,
          ⟨"Team", "lead_id", OnDestroy.raise⟩]⟩
        ⟨[⟨"Worker", "boss_id", some "7"⟩, ⟨"Team", "lead_id", some "7"⟩],
         [("master", "7")]⟩).1 =
      ⟨"master", some "7",
       [⟨"Worker", "boss_id", OnDestroy.detach⟩,
        ⟨"Team", "lead_id", OnDestroy.raise⟩]⟩ ∧
    ((destroy
        ⟨"master", some "7",
         [⟨"Worker", "boss_id", OnDestroy.detach⟩,
          ⟨"Team", "lead_id", OnDestroy.raise⟩]⟩
        ⟨[⟨"Worker", "boss_id", some "7"⟩, ⟨"Team", "lead_id", some "7"⟩],
         [("master", "7")]⟩).2.1).owners = [("master", "7")] := by
  have h := c4_owner_untouched_amended
    ⟨"master", some "7",
     [⟨"Worker", "boss_id", OnDestroy.detach⟩,
      ⟨"Team", "lead_id", OnDestroy.raise⟩]⟩
    ⟨[⟨"Worker", "boss_id", some "7"⟩, ⟨"Team", "lead_id", some "7"⟩],
     [("master", "7")]⟩
    (destroy
        ⟨"master", some "7",
         [⟨"Worker", "boss_id", OnDestroy.detach⟩,
          ⟨"Team", "lead_id", OnDestroy.raise⟩]⟩
        ⟨[⟨"Worker", "boss_id", some "7"⟩, ⟨"Team", "lead_id", some "7"⟩],
         [("master", "7")]⟩).1
    (destroy
        ⟨"master", some "7",
         [⟨"Worker", "boss_id", OnDestroy.detach⟩,
          ⟨"Team", "lead_id", OnDestroy.raise⟩]⟩
        ⟨[⟨"Worker", "boss_id", some "7"⟩, ⟨"Team", "lead_id", some "7"⟩],
         [("master", "7")]⟩).2.1
    ["Team"] (by decide)
  exact ⟨h.1, h.2.1⟩

end Mongey
